import Mathlib

/-!
Shallow embedding of the receipt-splitter core (`receipt_splitter_app.py`):
the `ReceiptItem` and `Receipt` data model with the per-person split
computation, and the Textract-response normalizer with its defensive
currency/quantity text parsing.  Python floats are modelled by exact
rationals `ℚ`; Python dicts (insertion-ordered) by association lists
`List (String × ℚ)`; Python ints by `ℤ`/`ℕ` as appropriate.
-/

set_option autoImplicit false

namespace ReceiptSplitter

/-- Embeds the dataclass `ReceiptItem` (name, price, quantity = 1,
assigned_to = []).  `assigned_to` is a Python list mutated only through
`assign_to` / `unassign_from`. -/
structure ReceiptItem where
  name : String
  price : ℚ
  quantity : ℤ := 1
  assigned_to : List String := []
  deriving Repr, DecidableEq

namespace ReceiptItem

/-- Embeds `ReceiptItem.assign_to`: append `person` unless already present. -/
def assign_to (it : ReceiptItem) (person : String) : ReceiptItem :=
  if person ∈ it.assigned_to then it
  else { it with assigned_to := it.assigned_to ++ [person] }

/-- Embeds `ReceiptItem.unassign_from`: remove the first occurrence of
`person` when present (Python `list.remove`), otherwise do nothing. -/
def unassign_from (it : ReceiptItem) (person : String) : ReceiptItem :=
  if person ∈ it.assigned_to then { it with assigned_to := it.assigned_to.erase person }
  else it

/-- Embeds `ReceiptItem.price_per_person`: `0.0` for an empty assignment
list, otherwise `price / len(assigned_to)`. -/
def price_per_person (it : ReceiptItem) : ℚ :=
  if it.assigned_to = [] then 0
  else it.price / (it.assigned_to.length : ℚ)

end ReceiptItem

/-- Embeds the dataclass `Receipt`. -/
structure Receipt where
  items : List ReceiptItem := []
  date : String := ""
  restaurant_name : String := ""
  subtotal : ℚ := 0
  tax : ℚ := 0
  tip : ℚ := 0
  deriving Repr, DecidableEq

namespace Receipt

/-- Embeds `Receipt.total`. -/
def total (r : Receipt) : ℚ :=
  r.subtotal + r.tax + r.tip

/-- Embeds `Receipt.add_item`: append to the item list. -/
def add_item (r : Receipt) (it : ReceiptItem) : Receipt :=
  { r with items := r.items ++ [it] }

end Receipt

/-- Models `person_totals[person] += v` preceded by
`if person not in person_totals: person_totals[person] = 0.0`
on an insertion-ordered dict represented as an association list. -/
def addToPerson (m : List (String × ℚ)) (p : String) (v : ℚ) : List (String × ℚ) :=
  match m with
  | [] => [(p, v)]
  | q :: rest => if q.1 = p then (q.1, q.2 + v) :: rest else q :: addToPerson rest p v

/-- First lookup of a key in an association list, defaulting to `0`
(a key inserted by `addToPerson` occurs once, like a dict key). -/
def lookupD (m : List (String × ℚ)) (p : String) : ℚ :=
  match m with
  | [] => 0
  | q :: rest => if q.1 = p then q.2 else lookupD rest p

/-- Sum of the values of the dict, `sum(m.values())`. -/
def sumValues (m : List (String × ℚ)) : ℚ :=
  (m.map Prod.snd).sum

namespace Receipt

/-- Embeds `Receipt.get_person_totals`: first accumulate each person's
base share (`price_per_person` per assigned item occurrence), then, when
`subtotal > 0`, add to each person `(tax + tip) * (base / subtotal)`. -/
def get_person_totals (r : Receipt) : List (String × ℚ) :=
  let base := r.items.foldl
    (fun m it => it.assigned_to.foldl
      (fun m' p => addToPerson m' p it.price_per_person) m) []
  if 0 < r.subtotal then
    base.map (fun pv => (pv.1, pv.2 + (r.tax + r.tip) * (pv.2 / r.subtotal)))
  else base

/-- State-passing rendition of `get_person_totals`: the receipt is
threaded through every loop iteration next to the local dict, so the
returned first component is the receipt as left behind by the call.  The
method body only reads `self`; no statement writes to it. -/
def get_person_totals_s (r : Receipt) : Receipt × List (String × ℚ) :=
  let st := r.items.foldl
    (fun (acc : Receipt × List (String × ℚ)) it =>
      (acc.1, it.assigned_to.foldl
        (fun m' p => addToPerson m' p it.price_per_person) acc.2))
    (r, [])
  if 0 < st.1.subtotal then
    (st.1, st.2.map (fun pv => (pv.1, pv.2 + (st.1.tax + st.1.tip) * (pv.2 / st.1.subtotal))))
  else st

end Receipt

/-! Textract-response model: the normalizer only reads the nested shape
`ExpenseDocuments[].SummaryFields[].{Type.Text, ValueDetection.Text}` and
`ExpenseDocuments[].LineItemGroups[].LineItems[].LineItemExpenseFields[]`
with the same `Type`/`ValueDetection` shape.  A missing `Type.Text` or
`ValueDetection.Text` key is an `Option` `none`; a missing list key is
an empty list (the Python guards skip iteration either way). -/

/-- One Textract field: `Type.Text` and `ValueDetection.Text`, each
possibly absent. -/
structure TField where
  ftype : Option String
  value : Option String
  deriving Repr, DecidableEq

/-- One Textract line item: its `LineItemExpenseFields`. -/
structure TLineItem where
  fields : List TField
  deriving Repr, DecidableEq

/-- One Textract line-item group: its `LineItems`. -/
structure TGroup where
  lineItems : List TLineItem
  deriving Repr, DecidableEq

/-- One Textract expense document: `SummaryFields` and `LineItemGroups`. -/
structure TDoc where
  summaryFields : List TField
  lineItemGroups : List TGroup
  deriving Repr, DecidableEq

/-- Numeric value of a list of decimal digit characters, as for Python
`int` on a non-empty digit string. -/
def digitsVal (l : List Char) : ℕ :=
  l.foldl (fun a c => a * 10 + (c.toNat - 48)) 0

/-- Characters kept by `re.sub(r'[^\d\.\-]', '', text)`. -/
def keepPriceChar (c : Char) : Bool :=
  c.isDigit || c = '.' || c = '-'

/-- Models Python `float(s)` restricted to the strings `_extract_price`
can feed it (only digits, dots and minus signs remain after stripping):
an optional single leading minus sign, then either a non-empty digit run
with an optional dot and further digits, or a dot flanked by digits on
at least one side; anything else (second dot, interior minus, no digits)
raises `ValueError`, i.e. `none`. -/
def pyFloatUnsigned? (l : List Char) : Option ℚ :=
  let ip := l.takeWhile (fun c => c ≠ '.')
  if ip.length = l.length then
    if !ip.isEmpty && ip.all Char.isDigit then some (digitsVal ip : ℚ) else none
  else
    let fp := l.drop (ip.length + 1)
    if (!ip.isEmpty || !fp.isEmpty) && ip.all Char.isDigit && fp.all Char.isDigit then
      some ((digitsVal ip : ℚ) + (digitsVal fp : ℚ) / (10 : ℚ) ^ fp.length)
    else none

/-- Signed case of the `float` model. -/
def pyFloat? (l : List Char) : Option ℚ :=
  match l with
  | '-' :: rest => (pyFloatUnsigned? rest).map Neg.neg
  | _ => pyFloatUnsigned? l

/-- Embeds `ReceiptParser._extract_price`: empty text gives `0.0`;
otherwise strip every character that is not a digit, dot or minus sign
and parse the remainder as a float, with `0.0` on `ValueError`. -/
def extract_price (text : String) : ℚ :=
  if text = "" then 0
  else (pyFloat? (text.toList.filter keepPriceChar)).getD 0

/-- Embeds the quantity parsing `int(re.sub(r'[^\d]', '', qty_text) or 1)`
guarded by `except ValueError: item_quantity = 1`: strip every non-digit
character; an empty remainder is the falsy `''`, so `int(1) = 1`;
a non-empty digit string always parses. -/
def parseQuantity (qty_text : String) : ℤ :=
  let ds := qty_text.toList.filter Char.isDigit
  if ds = [] then 1 else (digitsVal ds : ℤ)

/-- Embeds the summary-field loop body of `parse_textract_response`: on a
recognized `Type.Text` tag, overwrite the matching receipt field
(last-write-wins), parsing `SUBTOTAL`/`TAX` values as currency text with
default text `'0.0'`. -/
def processSummaryField (r : Receipt) (f : TField) : Receipt :=
  if f.ftype = some "VENDOR_NAME" then { r with restaurant_name := f.value.getD "" }
  else if f.ftype = some "RECEIPT_DATE" then { r with date := f.value.getD "" }
  else if f.ftype = some "SUBTOTAL" then { r with subtotal := extract_price (f.value.getD "0.0") }
  else if f.ftype = some "TAX" then { r with tax := extract_price (f.value.getD "0.0") }
  else r

/-- Embeds the per-line-item field loop: starting from
`item_name = ""`, `item_price = 0.0`, `item_quantity = 1`, each
recognized field overwrites its slot. -/
def processLineItemFields (fs : List TField) : String × ℚ × ℤ :=
  fs.foldl
    (fun acc f =>
      if f.ftype = some "ITEM" then (f.value.getD "", acc.2.1, acc.2.2)
      else if f.ftype = some "PRICE" then (acc.1, extract_price (f.value.getD "0.0"), acc.2.2)
      else if f.ftype = some "QUANTITY" then (acc.1, acc.2.1, parseQuantity (f.value.getD "1"))
      else acc)
    ("", 0, 1)

/-- Embeds the guarded `receipt.add_item(...)` at the end of each line
item: the item is added exactly when `item_name` is truthy (non-empty)
and `item_price > 0`. -/
def addLineItem (r : Receipt) (li : TLineItem) : Receipt :=
  let t := processLineItemFields li.fields
  if t.1 ≠ "" ∧ 0 < t.2.1 then
    r.add_item { name := t.1, price := t.2.1, quantity := t.2.2, assigned_to := [] }
  else r

/-- Embeds the body of the `for doc in response['ExpenseDocuments']` loop:
summary fields first, then every line item of every group. -/
def processDoc (r : Receipt) (doc : TDoc) : Receipt :=
  let r1 := doc.summaryFields.foldl processSummaryField r
  doc.lineItemGroups.foldl (fun r2 g => g.lineItems.foldl addLineItem r2) r1

/-- The receipt accumulated over all expense documents, before the final
subtotal fallback (`parse_textract_response` up to its last `if`). -/
def parse_docs_phase (docs : List TDoc) : Receipt :=
  docs.foldl processDoc {}

/-- Embeds `ReceiptParser.parse_textract_response`: process every
document into a fresh `Receipt()`, then, if the subtotal is still `0.0`
and items were found, set the subtotal to the sum of the item prices. -/
def parse_textract_response (docs : List TDoc) : Receipt :=
  let r := parse_docs_phase docs
  if r.subtotal = 0 ∧ r.items ≠ [] then
    { r with subtotal := (r.items.map ReceiptItem.price).sum }
  else r

/-- The receipt item a Textract line item yields under the discard rule:
`some` item when the parsed name is non-empty and the parsed price is
strictly positive, `none` otherwise. -/
def keptItem (li : TLineItem) : Option ReceiptItem :=
  let t := processLineItemFields li.fields
  if t.1 ≠ "" ∧ 0 < t.2.1 then
    some { name := t.1, price := t.2.1, quantity := t.2.2, assigned_to := [] }
  else none

/-- All line items of a response, across all groups of all documents, in
processing order. -/
def allLineItems (docs : List TDoc) : List TLineItem :=
  (docs.map (fun d => (d.lineItemGroups.map TGroup.lineItems).flatten)).flatten

/-- The base-share expression of the spec: for each item a participant is
assigned to, their share of its price (occurrence-counted, matching the
dict accumulation loop). -/
def baseShare (r : Receipt) (p : String) : ℚ :=
  (r.items.map (fun it => (it.assigned_to.count p : ℚ) * it.price_per_person)).sum

/-- Concrete receipt used as a witness: subtotal consistent with the item
prices, every item assigned. -/
def wr1 : Receipt :=
  { items := [{ name := "Burger", price := 10, assigned_to := ["alice"] },
              { name := "Pizza", price := 20, assigned_to := ["alice", "bob"] }],
    subtotal := 30, tax := 3, tip := 6 }

/-- Concrete receipt used as a witness: zero subtotal with non-zero tax
and tip. -/
def wr3 : Receipt :=
  { items := [{ name := "Burger", price := 10, assigned_to := ["alice"] },
              { name := "Pizza", price := 20, assigned_to := ["alice", "bob"] }],
    subtotal := 0, tax := 2, tip := 3 }

/-- Concrete Textract document whose single line item carries the
quantity text `"0"`. -/
def qtyZeroDoc : TDoc :=
  { summaryFields := [],
    lineItemGroups := [{ lineItems := [{ fields :=
      [{ ftype := some "ITEM", value := some "Burger" },
       { ftype := some "PRICE", value := some "5.00" },
       { ftype := some "QUANTITY", value := some "0" }] }] }] }

/-- Concrete item shared by two participants, used as a witness. -/
def itPizza : ReceiptItem :=
  { name := "Pizza", price := 31/2, assigned_to := ["alice", "bob"] }

/-- Concrete unassigned item, used as a witness. -/
def itSalad : ReceiptItem :=
  { name := "Salad", price := 3 }

/-- Concrete Textract document with no subtotal field and a single line
item of price 5.00 and quantity 3. -/
def qtyThreeDoc : TDoc :=
  { summaryFields := [],
    lineItemGroups := [{ lineItems := [{ fields :=
      [{ ftype := some "ITEM", value := some "Burger" },
       { ftype := some "PRICE", value := some "5.00" },
       { ftype := some "QUANTITY", value := some "3" }] }] }] }

end ReceiptSplitter

/-! Helper lemmas about the association-list dict. -/

namespace ReceiptSplitter

theorem sumValues_addToPerson (m : List (String × ℚ)) (p : String) (v : ℚ) :
    sumValues (addToPerson m p v) = sumValues m + v := by
  induction m with
  | nil => simp [addToPerson, sumValues]
  | cons q rest ih =>
    by_cases h : q.1 = p
    · simp only [addToPerson, if_pos h, sumValues, List.map_cons, List.sum_cons]
      ring
    · simp only [addToPerson, if_neg h, sumValues, List.map_cons, List.sum_cons] at ih ⊢
      rw [ih]; ring

theorem sumValues_people_fold (l : List String) (v : ℚ) :
    ∀ m : List (String × ℚ),
      sumValues (l.foldl (fun m' p => addToPerson m' p v) m) = sumValues m + l.length * v := by
  induction l with
  | nil => intro m; simp
  | cons p rest ih =>
    intro m
    simp only [List.foldl_cons, List.length_cons]
    rw [ih, sumValues_addToPerson]
    push_cast
    ring

theorem sumValues_items_fold (items : List ReceiptItem) :
    ∀ m : List (String × ℚ),
      sumValues (items.foldl
        (fun m' it => it.assigned_to.foldl
          (fun m'' p => addToPerson m'' p it.price_per_person) m') m) =
      sumValues m +
        (items.map (fun it => (it.assigned_to.length : ℚ) * it.price_per_person)).sum := by
  induction items with
  | nil => intro m; simp
  | cons it rest ih =>
    intro m
    simp only [List.foldl_cons, List.map_cons, List.sum_cons]
    rw [ih, sumValues_people_fold]
    ring

theorem length_mul_price_per_person (it : ReceiptItem) (h : it.assigned_to ≠ []) :
    (it.assigned_to.length : ℚ) * it.price_per_person = it.price := by
  have hl : (it.assigned_to.length : ℚ) ≠ 0 :=
    Nat.cast_ne_zero.mpr (List.length_pos.mpr h).ne'
  rw [ReceiptItem.price_per_person, if_neg h]
  field_simp

end ReceiptSplitter

namespace ReceiptSplitter

theorem sumValues_surcharge_map (m : List (String × ℚ)) (c s : ℚ) :
    sumValues (m.map (fun pv => (pv.1, pv.2 + c * (pv.2 / s)))) =
      sumValues m + c * (sumValues m / s) := by
  induction m with
  | nil => simp [sumValues]
  | cons q rest ih =>
    simp only [List.map_cons, sumValues, List.sum_cons] at ih ⊢
    rw [ih]
    ring

/-- C1: for a receipt with positive subtotal, every item assigned to at
least one participant, and subtotal equal to the sum of the item prices,
the values of `get_person_totals()` sum to `total() = subtotal + tax +
tip` (exactly, in the rational model of float arithmetic, hence within
any floating-point tolerance). -/
theorem claim_C1 (r : Receipt) (h1 : 0 < r.subtotal)
    (h2 : ∀ it ∈ r.items, it.assigned_to ≠ [])
    (h3 : r.subtotal = (r.items.map ReceiptItem.price).sum) :
    sumValues r.get_person_totals = r.total := by
  have hbase : sumValues (r.items.foldl
      (fun m' it => it.assigned_to.foldl
        (fun m'' p => addToPerson m'' p it.price_per_person) m') []) = r.subtotal := by
    rw [sumValues_items_fold]
    have hmap : r.items.map (fun it => (it.assigned_to.length : ℚ) * it.price_per_person) =
        r.items.map ReceiptItem.price := by
      apply List.map_congr_left
      intro it hit
      exact length_mul_price_per_person it (h2 it hit)
    rw [hmap, ← h3]
    simp [sumValues]
  simp only [Receipt.get_person_totals, if_pos h1]
  rw [sumValues_surcharge_map, hbase, div_self h1.ne', Receipt.total]
  ring

theorem claim_C1_witness :
    0 < wr1.subtotal ∧ sumValues wr1.get_person_totals = wr1.total :=
  ⟨by norm_num [wr1], claim_C1 wr1 (by norm_num [wr1]) (by decide) (by norm_num [wr1])⟩

end ReceiptSplitter

namespace ReceiptSplitter

theorem lookupD_addToPerson_self (m : List (String × ℚ)) (p : String) (v : ℚ) :
    lookupD (addToPerson m p v) p = lookupD m p + v := by
  induction m with
  | nil => simp [addToPerson, lookupD]
  | cons q rest ih =>
    by_cases h : q.1 = p
    · simp [addToPerson, lookupD, h]
    · simp [addToPerson, lookupD, h, ih]

theorem lookupD_addToPerson_ne (m : List (String × ℚ)) (p q : String) (v : ℚ)
    (h : q ≠ p) : lookupD (addToPerson m p v) q = lookupD m q := by
  induction m with
  | nil =>
    simp only [addToPerson, lookupD]
    rw [if_neg (fun hpq : p = q => h hpq.symm)]
  | cons e rest ih =>
    simp only [addToPerson]
    by_cases he : e.1 = p
    · rw [if_pos he]
      simp only [lookupD]
      have hne : ¬ e.1 = q := fun hq => h (hq.symm.trans he)
      rw [if_neg hne, if_neg hne]
    · rw [if_neg he]
      simp only [lookupD]
      by_cases heq : e.1 = q
      · rw [if_pos heq, if_pos heq]
      · rw [if_neg heq, if_neg heq, ih]

theorem lookupD_people_fold (l : List String) (q : String) (v : ℚ) :
    ∀ m : List (String × ℚ),
      lookupD (l.foldl (fun m' p => addToPerson m' p v) m) q =
        lookupD m q + (l.count q : ℚ) * v := by
  induction l with
  | nil => intro m; simp
  | cons p rest ih =>
    intro m
    simp only [List.foldl_cons]
    rw [ih]
    by_cases h : p = q
    · subst h
      rw [lookupD_addToPerson_self, List.count_cons_self]
      push_cast
      ring
    · rw [lookupD_addToPerson_ne m p q v (fun hq => h hq.symm),
        List.count_cons_of_ne (fun hq => h hq.symm)]

theorem lookupD_items_fold (items : List ReceiptItem) (q : String) :
    ∀ m : List (String × ℚ),
      lookupD (items.foldl
        (fun m' it => it.assigned_to.foldl
          (fun m'' p => addToPerson m'' p it.price_per_person) m') m) q =
      lookupD m q +
        (items.map (fun it => (it.assigned_to.count q : ℚ) * it.price_per_person)).sum := by
  induction items with
  | nil => intro m; simp
  | cons it rest ih =>
    intro m
    simp only [List.foldl_cons, List.map_cons, List.sum_cons]
    rw [ih, lookupD_people_fold]
    ring

/-- C3: with a zero subtotal, `get_person_totals()` assigns every
participant exactly their base share — the sum of `price_per_person()`
over the items they are assigned to — with no tax/tip surcharge, whatever
the tax and tip fields hold; the computation is total (no division by
zero: unassigned items contribute `0.0`). -/
theorem claim_C3 (r : Receipt) (h0 : r.subtotal = 0)
    (hnd : ∀ it ∈ r.items, it.assigned_to.Nodup) :
    ∀ p : String, lookupD r.get_person_totals p =
      (r.items.map (fun it => if p ∈ it.assigned_to then it.price_per_person else 0)).sum := by
  intro p
  have hn : ¬ 0 < r.subtotal := by rw [h0]; exact lt_irrefl 0
  simp only [Receipt.get_person_totals, if_neg hn]
  rw [lookupD_items_fold]
  have hmap : r.items.map (fun it => (it.assigned_to.count p : ℚ) * it.price_per_person) =
      r.items.map (fun it => if p ∈ it.assigned_to then it.price_per_person else 0) := by
    apply List.map_congr_left
    intro it hit
    by_cases hp : p ∈ it.assigned_to
    · rw [if_pos hp, List.count_eq_one_of_mem (hnd it hit) hp]
      push_cast
      ring
    · rw [if_neg hp, List.count_eq_zero_of_not_mem hp]
      push_cast
      ring
  rw [hmap]
  simp [lookupD]

theorem claim_C3_witness :
    wr3.subtotal = 0 ∧ wr3.tax ≠ 0 ∧
      lookupD wr3.get_person_totals "alice" =
        (wr3.items.map
          (fun it => if "alice" ∈ it.assigned_to then it.price_per_person else 0)).sum :=
  ⟨by norm_num [wr3], by norm_num [wr3], claim_C3 wr3 (by norm_num [wr3]) (by decide) "alice"⟩

end ReceiptSplitter

namespace ReceiptSplitter

/-- C2: `price_per_person()` is `price / len(assigned_to)` when the
assignment set is non-empty and `0.0` when it is empty. -/
theorem claim_C2 (it : ReceiptItem) :
    (it.assigned_to = [] → it.price_per_person = 0) ∧
    (it.assigned_to ≠ [] →
      it.price_per_person = it.price / (it.assigned_to.length : ℚ)) := by
  constructor
  · intro h
    rw [ReceiptItem.price_per_person, if_pos h]
  · intro h
    rw [ReceiptItem.price_per_person, if_neg h]

theorem claim_C2_witness :
    itPizza.price_per_person = itPizza.price / (itPizza.assigned_to.length : ℚ) ∧
      itSalad.price_per_person = 0 :=
  ⟨(claim_C2 itPizza).2 (by decide), (claim_C2 itSalad).1 (by decide)⟩

/-- C8: `assign_to(p)` is a no-op when `p` is already assigned and is
idempotent; `unassign_from(p)` is a no-op when `p` is absent.  All three
operations are total functions of the item (nothing raises). -/
theorem claim_C8 (it : ReceiptItem) (p : String) :
    (p ∈ it.assigned_to → it.assign_to p = it) ∧
    (it.assign_to p).assign_to p = it.assign_to p ∧
    (p ∉ it.assigned_to → it.unassign_from p = it) := by
  refine ⟨fun h => ?_, ?_, fun h => ?_⟩
  · rw [ReceiptItem.assign_to, if_pos h]
  · by_cases h : p ∈ it.assigned_to
    · simp [ReceiptItem.assign_to, h]
    · simp [ReceiptItem.assign_to, h]
  · rw [ReceiptItem.unassign_from, if_neg h]

theorem claim_C8_witness :
    itPizza.assign_to "alice" = itPizza ∧
      (itSalad.assign_to "carol").assign_to "carol" = itSalad.assign_to "carol" ∧
      itSalad.unassign_from "dave" = itSalad :=
  ⟨(claim_C8 itPizza "alice").1 (by decide), (claim_C8 itSalad "carol").2.1,
    (claim_C8 itSalad "dave").2.2 (by decide)⟩

theorem totals_s_fold (items : List ReceiptItem) :
    ∀ acc : Receipt × List (String × ℚ),
      items.foldl
        (fun acc' it => (acc'.1, it.assigned_to.foldl
          (fun m' p => addToPerson m' p it.price_per_person) acc'.2)) acc =
      (acc.1, items.foldl
        (fun m it => it.assigned_to.foldl
          (fun m' p => addToPerson m' p it.price_per_person) m) acc.2) := by
  induction items with
  | nil => intro acc; rfl
  | cons it rest ih =>
    intro acc
    simp only [List.foldl_cons]
    rw [ih]

/-- C10: the state-passing rendition of `get_person_totals()` returns the
receipt unchanged together with the `get_person_totals()` mapping, so a
second consecutive call returns an equal mapping. -/
theorem claim_C10 (r : Receipt) :
    r.get_person_totals_s = (r, r.get_person_totals) ∧
    (r.get_person_totals_s.1).get_person_totals_s.2 = r.get_person_totals_s.2 := by
  have h : r.get_person_totals_s = (r, r.get_person_totals) := by
    simp only [Receipt.get_person_totals_s, Receipt.get_person_totals]
    rw [totals_s_fold]
    by_cases hs : 0 < r.subtotal
    · simp [hs]
    · simp [hs]
  exact ⟨h, by simp [h]⟩

end ReceiptSplitter

namespace ReceiptSplitter

theorem items_processSummaryField (r : Receipt) (f : TField) :
    (processSummaryField r f).items = r.items := by
  simp only [processSummaryField]
  split_ifs <;> rfl

theorem items_summary_fold (fs : List TField) :
    ∀ r : Receipt, (fs.foldl processSummaryField r).items = r.items := by
  induction fs with
  | nil => intro r; rfl
  | cons f rest ih =>
    intro r
    simp only [List.foldl_cons]
    rw [ih, items_processSummaryField]

theorem items_addLineItem (r : Receipt) (li : TLineItem) :
    (addLineItem r li).items = r.items ++ (keptItem li).toList := by
  simp only [addLineItem, keptItem, Receipt.add_item]
  split_ifs with h
  · rfl
  · simp

theorem items_lineItems_fold (lis : List TLineItem) :
    ∀ r : Receipt, (lis.foldl addLineItem r).items = r.items ++ lis.filterMap keptItem := by
  induction lis with
  | nil => intro r; simp
  | cons li rest ih =>
    intro r
    simp only [List.foldl_cons, List.filterMap_cons]
    rw [ih, items_addLineItem]
    cases h : keptItem li <;> simp

theorem items_groups_fold (gs : List TGroup) :
    ∀ r : Receipt,
      ((gs.foldl (fun r2 g => g.lineItems.foldl addLineItem r2) r).items) =
        r.items ++ ((gs.map TGroup.lineItems).flatten).filterMap keptItem := by
  induction gs with
  | nil => intro r; simp
  | cons g rest ih =>
    intro r
    simp only [List.foldl_cons, List.map_cons, List.flatten_cons, List.filterMap_append]
    rw [ih, items_lineItems_fold]
    simp

theorem items_processDoc (r : Receipt) (d : TDoc) :
    (processDoc r d).items =
      r.items ++ ((d.lineItemGroups.map TGroup.lineItems).flatten).filterMap keptItem := by
  simp only [processDoc]
  rw [items_groups_fold, items_summary_fold]

theorem items_docs_fold (docs : List TDoc) :
    ∀ r : Receipt,
      (docs.foldl processDoc r).items = r.items ++ (allLineItems docs).filterMap keptItem := by
  induction docs with
  | nil => intro r; simp [allLineItems]
  | cons d rest ih =>
    intro r
    simp only [List.foldl_cons, allLineItems, List.map_cons, List.flatten_cons,
      List.filterMap_append]
    rw [ih, items_processDoc]
    simp [allLineItems]

theorem parse_items_spec (docs : List TDoc) :
    (parse_textract_response docs).items = (allLineItems docs).filterMap keptItem := by
  have hphase : (parse_docs_phase docs).items = (allLineItems docs).filterMap keptItem := by
    rw [parse_docs_phase, items_docs_fold]
    rfl
  simp only [parse_textract_response]
  split_ifs with h
  · simpa using hphase
  · exact hphase

/-- C4: a Textract line item ends up in the receipt exactly when its
parsed name is non-empty and its parsed price is strictly positive
(`keptItem` is `some` precisely under that condition); the receipt's item
list is the in-order kept sublist of all line items of the response. -/
theorem claim_C4 (docs : List TDoc) :
    (parse_textract_response docs).items = (allLineItems docs).filterMap keptItem ∧
    ∀ li : TLineItem,
      ((keptItem li).isSome ↔
        (processLineItemFields li.fields).1 ≠ "" ∧ 0 < (processLineItemFields li.fields).2.1) :=
  ⟨parse_items_spec docs, by
    intro li
    simp only [keptItem]
    split_ifs with h
    · simpa using h
    · simpa using h⟩

end ReceiptSplitter

namespace ReceiptSplitter

theorem extract_price_five : extract_price "5.00" = 5 := by
  have h : extract_price "5.00" = ((5:ℕ):ℚ) + ((0:ℕ):ℚ) / (10:ℚ) ^ (2:ℕ) := rfl
  rw [h]
  norm_num

theorem parseQuantity_nonneg (s : String) : 0 ≤ parseQuantity s := by
  simp only [parseQuantity]
  split_ifs
  · norm_num
  · exact Int.natCast_nonneg _

theorem lineItemFields_qty_nonneg (fs : List TField) :
    ∀ acc : String × ℚ × ℤ, 0 ≤ acc.2.2 →
      0 ≤ (fs.foldl
        (fun acc' f =>
          if f.ftype = some "ITEM" then (f.value.getD "", acc'.2.1, acc'.2.2)
          else if f.ftype = some "PRICE" then
            (acc'.1, extract_price (f.value.getD "0.0"), acc'.2.2)
          else if f.ftype = some "QUANTITY" then
            (acc'.1, acc'.2.1, parseQuantity (f.value.getD "1"))
          else acc') acc).2.2 := by
  induction fs with
  | nil => intro acc h; exact h
  | cons f rest ih =>
    intro acc h
    simp only [List.foldl_cons]
    apply ih
    split_ifs
    · exact h
    · exact h
    · exact parseQuantity_nonneg _
    · exact h

theorem processLineItemFields_qty_nonneg (fs : List TField) :
    0 ≤ (processLineItemFields fs).2.2 := by
  rw [processLineItemFields]
  exact lineItemFields_qty_nonneg fs ("", 0, 1) (by norm_num)

/-- C9, counterexample: a line item whose quantity text is `"0"` (with a
non-empty name and positive price) is added to the receipt with quantity
`0`, so a receipt can hold an item whose quantity is not a positive
integer. -/
theorem claim_C9_counterexample :
    (parse_textract_response [qtyZeroDoc]).items.map ReceiptItem.quantity = [0] ∧
    ¬ (∀ it ∈ (parse_textract_response [qtyZeroDoc]).items, 1 ≤ it.quantity) := by
  have hitems : (parse_textract_response [qtyZeroDoc]).items =
      [{ name := "Burger", price := 5, quantity := 0 }] := by
    simp [qtyZeroDoc, parse_textract_response, parse_docs_phase, processDoc, addLineItem,
      processLineItemFields, processSummaryField, Receipt.add_item, extract_price_five,
      parseQuantity, digitsVal]
  constructor
  · rw [hitems]
    rfl
  · rw [hitems]
    intro h
    have h0 := h _ (List.mem_singleton_self _)
    norm_num at h0

/-- C9, amended: every item a parsed receipt holds has a non-negative
integer quantity (the default is 1; the normalizer yields the value of
the digits of the quantity text, which can be 0, or 1 when there are no
digits). -/
theorem claim_C9 (docs : List TDoc) :
    ∀ it ∈ (parse_textract_response docs).items, 0 ≤ it.quantity := by
  intro it hit
  rw [parse_items_spec] at hit
  obtain ⟨li, -, heq⟩ := List.mem_filterMap.mp hit
  simp only [keptItem] at heq
  split_ifs at heq with h
  obtain rfl := (Option.some.injEq _ _).mp heq
  exact processLineItemFields_qty_nonneg li.fields

theorem claim_C9_witness :
    0 ≤ ({ name := "Burger", price := 5, quantity := 0 } : ReceiptItem).quantity := by
  apply claim_C9 [qtyZeroDoc]
  simp [qtyZeroDoc, parse_textract_response, parse_docs_phase, processDoc, addLineItem,
    processLineItemFields, processSummaryField, Receipt.add_item, extract_price_five,
    parseQuantity, digitsVal]

/-- C7: the final subtotal fallback — when the subtotal accumulated over
all documents is exactly zero and at least one item was added, the
returned receipt is the accumulated one with its subtotal replaced by the
plain sum of item prices (quantity plays no part); otherwise the
accumulated receipt is returned unchanged. -/
theorem claim_C7 (docs : List TDoc) :
    ((parse_docs_phase docs).subtotal = 0 ∧ (parse_docs_phase docs).items ≠ [] →
      parse_textract_response docs =
        { parse_docs_phase docs with
            subtotal := ((parse_docs_phase docs).items.map ReceiptItem.price).sum }) ∧
    (¬ ((parse_docs_phase docs).subtotal = 0 ∧ (parse_docs_phase docs).items ≠ []) →
      parse_textract_response docs = parse_docs_phase docs) := by
  constructor
  · intro h
    simp only [parse_textract_response]
    rw [if_pos h]
  · intro h
    simp only [parse_textract_response]
    rw [if_neg h]

theorem claim_C7_witness :
    (parse_docs_phase [qtyThreeDoc]).subtotal = 0 ∧
    (parse_docs_phase [qtyThreeDoc]).items ≠ [] ∧
    (parse_textract_response [qtyThreeDoc]).subtotal = 5 ∧
    (parse_textract_response [qtyThreeDoc]).items.map ReceiptItem.quantity = [3] := by
  have hphase : parse_docs_phase [qtyThreeDoc] =
      { items := [{ name := "Burger", price := 5, quantity := 3 }] } := by
    simp [qtyThreeDoc, parse_docs_phase, processDoc, addLineItem, processLineItemFields,
      processSummaryField, Receipt.add_item, extract_price_five, parseQuantity, digitsVal]
  have h1 : (parse_docs_phase [qtyThreeDoc]).subtotal = 0 := by rw [hphase]
  have h2 : (parse_docs_phase [qtyThreeDoc]).items ≠ [] := by rw [hphase]; simp
  have hfix := (claim_C7 [qtyThreeDoc]).1 ⟨h1, h2⟩
  refine ⟨h1, h2, ?_, ?_⟩
  · rw [hfix, hphase]
    norm_num
  · rw [hfix, hphase]
    rfl

end ReceiptSplitter

namespace ReceiptSplitter

/-- C5: currency-text parsing keeps only digit, dot and minus characters
and parses the remainder as a decimal number with `0.0` on failure
(`extract_price` depends only on the kept characters); the documented
examples hold: `"$12.99"` → 12.99, `"1,234.56"` → 1234.56, `""` → 0.0,
`"N/A"` → 0.0, `"-5.00"` → -5.00. -/
theorem claim_C5 :
    extract_price "$12.99" = 1299 / 100 ∧
    extract_price "1,234.56" = 123456 / 100 ∧
    extract_price "" = 0 ∧
    extract_price "N/A" = 0 ∧
    extract_price "-5.00" = -5 ∧
    ∀ s : String,
      extract_price (String.mk (s.toList.filter keepPriceChar)) = extract_price s := by
  refine ⟨?_, ?_, rfl, rfl, ?_, ?_⟩
  · have h : extract_price "$12.99" = ((12:ℕ):ℚ) + ((99:ℕ):ℚ) / (10:ℚ) ^ (2:ℕ) := rfl
    rw [h]
    norm_num
  · have h : extract_price "1,234.56" = ((1234:ℕ):ℚ) + ((56:ℕ):ℚ) / (10:ℚ) ^ (2:ℕ) := rfl
    rw [h]
    norm_num
  · have h : extract_price "-5.00" = -(((5:ℕ):ℚ) + ((0:ℕ):ℚ) / (10:ℚ) ^ (2:ℕ)) := rfl
    rw [h]
    norm_num
  · intro s
    by_cases hs : s = ""
    · subst hs
      rfl
    · by_cases hf : s.toList.filter keepPriceChar = []
      · rw [hf]
        show extract_price "" = extract_price s
        rw [extract_price, if_pos rfl, extract_price, if_neg hs, hf]
        rfl
      · have hne : String.mk (s.toList.filter keepPriceChar) ≠ "" := by
          intro hcontra
          exact hf (by simpa using congrArg String.data hcontra)
        rw [extract_price, if_neg hne, extract_price, if_neg hs]
        have htl : (String.mk (s.toList.filter keepPriceChar)).toList =
            s.toList.filter keepPriceChar := rfl
        rw [htl, List.filter_filter]
        simp only [Bool.and_self]

/-- C6: quantity-text parsing keeps only digit characters and parses the
remainder as an integer, with default 1 on an empty remainder
(`parseQuantity` depends only on the digit characters); the documented
examples hold: `"2x"` → 2, `""` → 1, `"abc"` → 1. -/
theorem claim_C6 :
    parseQuantity "2x" = 2 ∧
    parseQuantity "" = 1 ∧
    parseQuantity "abc" = 1 ∧
    ∀ s : String,
      parseQuantity (String.mk (s.toList.filter Char.isDigit)) = parseQuantity s := by
  refine ⟨rfl, rfl, rfl, ?_⟩
  intro s
  simp only [parseQuantity]
  have htl : (String.mk (s.toList.filter Char.isDigit)).toList =
      s.toList.filter Char.isDigit := rfl
  rw [htl, List.filter_filter]
  simp only [Bool.and_self]

end ReceiptSplitter
